import Mathlib

/-!
Verification development for the smart-contract indexer.

The definitions below are a shallow embedding of the indexer's source:

* `classifyInbound`, `processInbound`, `qualifiesWithdrawal`, `processOutbound`,
  `computeBookings`, `insertBookings` embed the message-classification and
  booking-persistence logic of `handle_nominator_pool`
  (src/handlers/new_nominator_pool.py);
* `pyTrunc`, `validatorReward`, `recoverStakeBookings` embed the reward-split
  arithmetic of `process_recover_stake` (same file); Python float arithmetic is
  modelled by exact rational arithmetic (all inputs considered in the theorems
  are exactly representable as IEEE doubles, so the model agrees with the code
  there), and Python `int()` is truncation toward zero (`pyTrunc`);
* `fetchPoolState`, `deleteAccount` embed the lite-client retry logic at the
  top of `handle_nominator_pool`;
* `updatePoolRow` embeds the pool-summary upsert of `handle_nominator_pool`;
  `handleDedustPool` embeds the early-return insert of `handle_dedust_pool`
  (src/handlers/dedust_pool.py);
* `updateActives`, `markInactive` embed the subaccount balance maintenance of
  `handle_nominator_pool`;
* `cycleCheckpoint` embeds the checkpoint update of `run` (src/main.py).

Database tables are modelled as lists of rows; the SHA-256 content fingerprint
of a booking (`sha256(json.dumps(record, sort_keys=True))`) is modelled by the
canonical field tuple itself (`BookingFields`), i.e. the hash is treated as
injective on canonical serializations.
-/

namespace SCIndexer

/-- An inbound message to the pool, as selected by the query in
`handle_nominator_pool` (joined with its transaction description and decoded
body).  `exitCode = none` models a transaction description that fails to
parse (the `try/except` around `descr["compute_ph"]["exit_code"]`);
`op = none` models a body too short for a 32-bit op code; `firstByte = none`
models a body with no byte after a zero op code. -/
structure InMsg where
  source : String
  value : Int
  created_lt : Int
  created_at : Int
  exitCode : Option Int
  actionCode : Int
  op : Option Nat
  firstByte : Option Nat
deriving DecidableEq, Repr

/-- An outbound message from the pool.  `bounce` is true when the transaction
description carries a `bounce: true` flag. -/
structure OutMsg where
  destination : String
  bounce : Bool
  value : Int
  body : String
  created_lt : Int
  created_at : Int
deriving DecidableEq, Repr

/-- A booking record as assembled in the `bookings` list of
`handle_nominator_pool` before persistence (the Python dict with keys
lt, utime, subaccount_address, debit, credit, type). -/
structure BRecord where
  lt : Int
  utime : Int
  subaccount_address : String
  debit : Int
  credit : Int
  btype : String
deriving DecidableEq, Repr

/-- Result of classifying one inbound message, mirroring the branch structure
of the inbound loop in `handle_nominator_pool`. -/
inductive InAction where
  | deposit (r : BRecord)
  | withdrawReq (src : String) (at_ : Int)
  | income
  | skip
deriving DecidableEq, Repr

/-- The inbound-message classification of `handle_nominator_pool`:
skip on description-parse failure, on nonzero exit or action code, or on an
unreadable body; op 0 with first byte 100 (letter d) is a deposit with credit
`value - 10^9`; op 0 with first byte 119 (letter w) records a withdrawal
request; op 0xF96F7324 is a recover-stake income event. -/
def classifyInbound (m : InMsg) : InAction :=
  match m.exitCode with
  | none => .skip
  | some ec =>
    if ec ≠ 0 ∨ m.actionCode ≠ 0 then .skip
    else match m.op with
      | none => .skip
      | some op =>
        if op = 0 then
          match m.firstByte with
          | none => .skip
          | some b =>
            if b = 100 then
              .deposit ⟨m.created_lt, m.created_at, m.source, 0,
                        m.value - 10 ^ 9, "nominator_deposit"⟩
            else if b = 119 then
              .withdrawReq m.source m.created_at
            else .skip
        else if op = 0xF96F7324 then .income
        else .skip

/-- Append a withdrawal request time to the per-address list, creating the
entry when absent (the `withdrawal_requests` dict update in
`handle_nominator_pool`). -/
def addRequest : List (String × List Int) → String → Int → List (String × List Int)
  | [], src, t => [(src, [t])]
  | (k, v) :: rest, src, t =>
    if k = src then (k, v ++ [t]) :: rest
    else (k, v) :: addRequest rest src t

/-- One step of the inbound loop: append a deposit booking, record a
withdrawal request, or leave the accumulator unchanged. -/
def inStep (acc : List BRecord × List (String × List Int)) (m : InMsg) :
    List BRecord × List (String × List Int) :=
  match classifyInbound m with
  | .deposit r => (acc.1 ++ [r], acc.2)
  | .withdrawReq s t => (acc.1, addRequest acc.2 s t)
  | _ => acc

/-- The inbound pass of `handle_nominator_pool`: fold over the inbound
messages collecting deposit bookings and the withdrawal-request map
(income events are dispatched separately to `process_recover_stake`). -/
def processInbound (msgs : List InMsg) : List BRecord × List (String × List Int) :=
  msgs.foldl inStep ([], [])

/-- The canonical empty body payload checked on outbound messages. -/
def emptyBodyB64 : String := "te6cckEBAQEAAgAAAEysuc0="

/-- The check `msg.destination.startswith("0:")`: the destination address is
written in raw basechain form.  Stated on the character list so that it evaluates by
kernel reduction. -/
def startsWithBasechain (s : String) : Bool :=
  match s.data with
  | c1 :: c2 :: _ => c1 = '0' && c2 = ':'
  | _ => false

/-- Whether an outbound message qualifies as a withdrawal in
`handle_nominator_pool`: basechain destination, no bounce flag, value at
least one coin unit, the canonical empty body, and at least one recorded
withdrawal request from the destination with time in
`(created_at - 36*3600, created_at]`. -/
def qualifiesWithdrawal (reqs : List (String × List Int)) (m : OutMsg) : Bool :=
  startsWithBasechain m.destination &&
  !m.bounce &&
  !(m.value < 10 ^ 9) &&
  m.body == emptyBodyB64 &&
  (match reqs.find? (fun e => e.1 = m.destination) with
   | none => false
   | some e =>
     e.2.any (fun r => r > m.created_at - 36 * 3600 && r ≤ m.created_at))

/-- The booking record appended for a matched outbound withdrawal. -/
def withdrawalRecord (m : OutMsg) : BRecord :=
  ⟨m.created_lt, m.created_at, m.destination, m.value, 0, "nominator_withdrawal"⟩

/-- The outbound pass of `handle_nominator_pool`: every qualifying message
produces a withdrawal booking; the request map is only read, never written. -/
def processOutbound (reqs : List (String × List Int)) (msgs : List OutMsg) : List BRecord :=
  msgs.filterMap (fun m => if qualifiesWithdrawal reqs m then some (withdrawalRecord m) else none)

/-- Comparison used to sort bookings by `(utime, lt)`. -/
def bookingLE (a b : BRecord) : Bool :=
  a.utime < b.utime || (a.utime = b.utime && a.lt ≤ b.lt)

/-- The sorted booking list computed by the two message passes of
`handle_nominator_pool` (`bookings = sorted(bookings, key=...)`; Python's
stable sort is modelled by insertion sort, which is also stable). -/
def computeBookings (msgsIn : List InMsg) (msgsOut : List OutMsg) : List BRecord :=
  let p := processInbound msgsIn
  (p.1 ++ processOutbound p.2 msgsOut).insertionSort (fun a b => bookingLE a b = true)

/-- The canonical fields hashed into a booking's content fingerprint: the
record dict after `account_id` and `subaccount_id` are added, with keys in
sorted order as produced by `json.dumps(record, sort_keys=True)`.  The
SHA-256 of this serialization is modelled by the field tuple itself. -/
structure BookingFields where
  account_id : Nat
  credit : Int
  debit : Int
  lt : Int
  subaccount_address : String
  subaccount_id : Nat
  btype : String
  utime : Int
deriving DecidableEq, Repr

/-- A persisted `Booking` row. -/
structure Booking where
  booking_hash : BookingFields
  subaccount_id : Nat
  booking_lt : Int
  booking_utime : Int
  btype : String
  credit : Int
  debit : Int
deriving DecidableEq, Repr

/-- Content fingerprint of a record for a given pool `account_id` and
`subaccount_id`. -/
def recordFields (pid sid : Nat) (r : BRecord) : BookingFields :=
  ⟨pid, r.credit, r.debit, r.lt, r.subaccount_address, sid, r.btype, r.utime⟩

/-- The `Booking` row built from a record in the insert loop of
`handle_nominator_pool`. -/
def mkBooking (pid sid : Nat) (r : BRecord) : Booking :=
  ⟨recordFields pid sid r, sid, r.lt, r.utime, r.btype, r.credit, r.debit⟩

/-- One step of the insert loop: if a booking with the same fingerprint
already exists in the store, skip; otherwise insert. -/
def insertBooking (store : List Booking) (b : Booking) : List Booking :=
  if store.any (fun x => x.booking_hash = b.booking_hash) then store
  else store ++ [b]

/-- The booking insert loop of `handle_nominator_pool`: each record is
given its subaccount id (`sidOf` models the `all_subaccounts` lookup, which
yields the same id on every run since subaccount rows persist), fingerprinted,
and inserted unless the fingerprint already exists. -/
def insertBookings (pid : Nat) (sidOf : String → Nat) (rs : List BRecord)
    (store : List Booking) : List Booking :=
  rs.foldl (fun s r => insertBooking s (mkBooking pid (sidOf r.subaccount_address) r)) store

/-- Fingerprints present in a store. -/
def storeHashes (store : List Booking) : List BookingFields :=
  store.map (fun b => b.booking_hash)

/-! ### Reward split arithmetic (`process_recover_stake`)

Python float arithmetic is modelled by exact rational arithmetic; `int()`
applied to a float is truncation toward zero. -/

/-- Python `int()` on an exact rational value: truncation toward zero. -/
def pyTrunc (q : ℚ) : ℤ :=
  if q < 0 then -(Int.floor (-q)) else Int.floor q

/-- The assignment `validator_reward = int(reward * validator_share / 10000)`
in `process_recover_stake`. -/
def validatorReward (reward shareBps : ℤ) : ℤ :=
  pyTrunc ((reward * shareBps : ℤ) / (10000 : ℚ))

/-- The assignment `nominators_reward = reward - validator_reward`. -/
def nominatorsReward (reward shareBps : ℤ) : ℤ :=
  reward - validatorReward reward shareBps

/-- The per-nominator credit
`his_reward = int(balance / stake_amount_sent_before * nominators_reward)`. -/
def nominatorCredit (balance stakeBefore nr : ℤ) : ℤ :=
  pyTrunc ((balance : ℚ) / (stakeBefore : ℚ) * (nr : ℚ))

/-- The booking records appended by `process_recover_stake` for one income
message: reward split between validator and nominators, one record per
nominator whose computed credit is nonzero (the `if not his_reward: continue`
guard). -/
def recoverStakeBookings (lt utime value stakeBefore shareBps : ℤ)
    (noms : List (String × Int × Int)) : List BRecord :=
  noms.filterMap (fun n =>
    if nominatorCredit n.2.1 stakeBefore (nominatorsReward (value - stakeBefore) shareBps) = 0
    then none
    else some ⟨lt, utime, n.1, 0,
      nominatorCredit n.2.1 stakeBefore (nominatorsReward (value - stakeBefore) shareBps),
      "nominator_income"⟩)

/-! ### Driver checkpoint (`run` in src/main.py) -/

/-- One driver cycle's effect on the persisted checkpoint: candidate accounts
are those with timestamp strictly greater than the checkpoint, ordered
ascending (the `ORDER BY timestamp` query); if the batch is non-empty the
checkpoint becomes the last (hence maximum) timestamp, otherwise it is left
unchanged. -/
def cycleCheckpoint (c : Int) (timestamps : List Int) : Int :=
  match ((timestamps.filter (fun t => c < t)).insertionSort (· ≤ ·)).getLast? with
  | some t => t
  | none => c

/-! ### Account-state fetch with one reconnect (`handle_nominator_pool`) -/

/-- An `Account` row in the result store. -/
structure AccountRow where
  account : String
  account_kind : String
  balance : Int
deriving DecidableEq, Repr

/-- Function `delete_pool_with_nominators`: remove the account's row from the result
store (nominator and pool rows cascade from it). -/
def deleteAccount (addr : String) (store : List AccountRow) : List AccountRow :=
  store.filter (fun a => a.account ≠ addr)

/-- The account-state fetch at the top of `handle_nominator_pool`: `first` is
the outcome of the initial `get_account_state` (with `none` covering both a
raised exception and a state without data), `retry` the outcome of the single
retry on a freshly connected client.  On first success the data is returned;
on first failure the retry result is used; if the retry also fails the
account's rows are deleted and the handler returns. -/
def fetchPoolState (first retry : Option α) (addr : String)
    (store : List AccountRow) : Option α × List AccountRow :=
  match first with
  | some d => (some d, store)
  | none =>
    match retry with
    | some d => (some d, store)
    | none => (none, deleteAccount addr store)

/-! ### Pool summary rows -/

/-- A nominator-pool summary row (`Account` joined with `NominatorPool`). -/
structure PoolRow where
  account : String
  balance : Int
  validator_amount : Int
  stake_amount_sent : Int
  nominators_count : Int
deriving DecidableEq, Repr

/-- The in-place field update applied to the existing pool row
(`pool_account.balance = balance; pool.validator_amount = ...`). -/
def applyPoolFields (addr : String) (balance va sas nc : Int) (p : PoolRow) : PoolRow :=
  if p.account = addr then
    { p with balance := balance, validator_amount := va,
             stake_amount_sent := sas, nominators_count := nc }
  else p

/-- The pool-summary upsert of `handle_nominator_pool`: if a row for the
address exists it is updated in place with the freshly parsed fields,
otherwise a new row is inserted. -/
def updatePoolRow (addr : String) (balance va sas nc : Int)
    (store : List PoolRow) : List PoolRow :=
  if store.any (fun p => p.account = addr) then
    store.map (applyPoolFields addr balance va sas nc)
  else store ++ [⟨addr, balance, va, sas, nc⟩]

/-- A dedust liquidity-pool row (`LPoolWithAssets`). -/
structure LPoolRow where
  account : String
  balance : Int
  asset1_reserve : Int
  asset2_reserve : Int
deriving DecidableEq, Repr

/-- Handler `handle_dedust_pool`: if a row for the address already exists the handler
returns immediately (no update); otherwise the current balance and reserves
are inserted as a new row. -/
def handleDedustPool (addr : String) (balance r1 r2 : Int)
    (store : List LPoolRow) : List LPoolRow :=
  if store.any (fun p => p.account = addr) then store
  else store ++ [⟨addr, balance, r1, r2⟩]

/-! ### Subaccount balance maintenance (`handle_nominator_pool`) -/

/-- A subaccount's `Nominator` row. -/
structure NomRow where
  owner : String
  balance : Int
  pending_balance : Int
deriving DecidableEq, Repr

/-- One step of the active-nominator update loop: update the existing
subaccount's balances in place, or create a new subaccount row. -/
def activeStep (acc : List NomRow) (n : String × Int × Int) : List NomRow :=
  if acc.any (fun s => s.owner = n.1) then
    acc.map (fun s =>
      if s.owner = n.1 then { s with balance := n.2.1, pending_balance := n.2.2 }
      else s)
  else acc ++ [⟨n.1, n.2.1, n.2.2⟩]

/-- The active-nominator update loop of `handle_nominator_pool`, one
`activeStep` per entry of the parsed nominators dictionary. -/
def updateActives (noms : List (String × Int × Int)) (subs : List NomRow) : List NomRow :=
  noms.foldl activeStep subs

/-- The `new_active_nominators` list: every owner present in the parsed
nominators dictionary. -/
def activeOwners (noms : List (String × Int × Int)) : List String :=
  noms.map (fun n => n.1)

/-- The make-inactive loop: each known subaccount whose owner is not in the
active list has its balance and pending balance zeroed. -/
def markInactive (active : List String) (subs : List NomRow) : List NomRow :=
  subs.map (fun s =>
    if active.contains s.owner then s
    else { s with balance := 0, pending_balance := 0 })

/-- A fixed subaccount-id assignment used to instantiate theorems on concrete
inputs. -/
def sidTwo : String → Nat := fun _ => 2

/-! ## Helper lemmas about the booking insert loop -/

theorem any_insertBooking_self (s : List Booking) (b : Booking) :
    (insertBooking s b).any (fun x => x.booking_hash = b.booking_hash) = true := by
  unfold insertBooking
  by_cases h : s.any (fun x => x.booking_hash = b.booking_hash) = true
  · simp only [h, if_true]
  · simp only [h, if_false, List.any_append, List.any_cons, List.any_nil,
      decide_eq_true_eq]
    simp

theorem any_insertBooking_mono {s : List Booking} {p : Booking → Bool}
    (h : s.any p = true) (b : Booking) : (insertBooking s b).any p = true := by
  unfold insertBooking
  split
  · exact h
  · simp [List.any_append, h]

theorem any_insertBookings_mono (pid : Nat) (f : String → Nat) {p : Booking → Bool}
    {s : List Booking} (h : s.any p = true) (rs : List BRecord) :
    (insertBookings pid f rs s).any p = true := by
  induction rs generalizing s with
  | nil => exact h
  | cons r rs ih => exact ih (any_insertBooking_mono h _)

theorem hash_present_after_insertBookings (pid : Nat) (f : String → Nat)
    (rs : List BRecord) {r : BRecord} (hr : r ∈ rs) (s : List Booking) :
    (insertBookings pid f rs s).any
      (fun x => x.booking_hash = (mkBooking pid (f r.subaccount_address) r).booking_hash)
      = true := by
  induction rs generalizing s with
  | nil => cases hr
  | cons a rs ih =>
    rcases List.mem_cons.mp hr with rfl | hr
    · exact any_insertBookings_mono pid f (any_insertBooking_self s _) rs
    · exact ih hr _

theorem insertBooking_of_present {s : List Booking} {b : Booking}
    (h : s.any (fun x => x.booking_hash = b.booking_hash) = true) :
    insertBooking s b = s := by
  unfold insertBooking
  simp [h]

theorem insertBookings_idem (pid : Nat) (f : String → Nat) (rs : List BRecord)
    (s : List Booking) :
    insertBookings pid f rs (insertBookings pid f rs s) = insertBookings pid f rs s := by
  induction rs generalizing s with
  | nil => rfl
  | cons a rs ih =>
    have hstep :
        insertBookings pid f (a :: rs) s
          = insertBookings pid f rs (insertBooking s (mkBooking pid (f a.subaccount_address) a)) :=
      rfl
    rw [hstep]
    set s1 := insertBooking s (mkBooking pid (f a.subaccount_address) a) with hs1
    have hpresent :
        (insertBookings pid f rs s1).any
          (fun x => x.booking_hash = (mkBooking pid (f a.subaccount_address) a).booking_hash)
          = true :=
      any_insertBookings_mono pid f (any_insertBooking_self s _) rs
    have hstep2 :
        insertBookings pid f (a :: rs) (insertBookings pid f rs s1)
          = insertBookings pid f rs
              (insertBooking (insertBookings pid f rs s1)
                (mkBooking pid (f a.subaccount_address) a)) :=
      rfl
    rw [hstep2, insertBooking_of_present hpresent, ih]

theorem storeHashes_nodup_insertBooking {s : List Booking}
    (h : (storeHashes s).Nodup) (b : Booking) :
    (storeHashes (insertBooking s b)).Nodup := by
  unfold insertBooking
  split
  · exact h
  · rename_i hany
    have hnot : ∀ x ∈ s, ¬ x.booking_hash = b.booking_hash := by
      intro x hx hcontra
      exact hany (List.any_eq_true.mpr ⟨x, hx, by simp [hcontra]⟩)
    have hmem : b.booking_hash ∉ storeHashes s := by
      intro hmem
      rcases List.mem_map.mp hmem with ⟨x, hx, hxe⟩
      exact hnot x hx hxe
    simp only [storeHashes, List.map_append, List.map_cons, List.map_nil]
    refine List.Nodup.append h (List.nodup_singleton _) ?_
    intro x hx hxb
    rw [List.mem_singleton] at hxb
    subst hxb
    exact hmem hx

theorem storeHashes_nodup_insertBookings (pid : Nat) (f : String → Nat)
    (rs : List BRecord) {s : List Booking} (h : (storeHashes s).Nodup) :
    (storeHashes (insertBookings pid f rs s)).Nodup := by
  induction rs generalizing s with
  | nil => exact h
  | cons a rs ih => exact ih (storeHashes_nodup_insertBooking h _)

/-! ## Claim theorems -/

/-- C1: running the ledger reconstruction twice over the same inbound and
outbound message set inserts exactly the same Booking rows as running it
once — before inserting, each booking's content fingerprint is computed and a
booking whose fingerprint already exists is skipped — and the store keeps at
most one Booking per fingerprint. -/
theorem booking_idempotency (pid : Nat) (f : String → Nat) (msgsIn : List InMsg)
    (msgsOut : List OutMsg) (store : List Booking)
    (h : (storeHashes store).Nodup) :
    insertBookings pid f (computeBookings msgsIn msgsOut)
        (insertBookings pid f (computeBookings msgsIn msgsOut) store)
      = insertBookings pid f (computeBookings msgsIn msgsOut) store
    ∧ (storeHashes (insertBookings pid f (computeBookings msgsIn msgsOut) store)).Nodup :=
  ⟨insertBookings_idem pid f (computeBookings msgsIn msgsOut) store,
   storeHashes_nodup_insertBookings pid f (computeBookings msgsIn msgsOut) h⟩

/-- C1 witness: a single deposit message with value 5_500_000_000 processed
twice from an empty store. -/
theorem booking_idempotency_witness :
    insertBookings 1 sidTwo
        (computeBookings [⟨"0:S", 5500000000, 7, 99, some 0, 0, some 0, some 100⟩] [])
        (insertBookings 1 sidTwo
          (computeBookings [⟨"0:S", 5500000000, 7, 99, some 0, 0, some 0, some 100⟩] []) [])
      = insertBookings 1 sidTwo
          (computeBookings [⟨"0:S", 5500000000, 7, 99, some 0, 0, some 0, some 100⟩] []) []
    ∧ (storeHashes
        (insertBookings 1 sidTwo
          (computeBookings [⟨"0:S", 5500000000, 7, 99, some 0, 0, some 0, some 100⟩] []) [])).Nodup :=
  booking_idempotency 1 sidTwo
    [⟨"0:S", 5500000000, 7, 99, some 0, 0, some 0, some 100⟩] [] [] (by decide)

/-- C2 counterexample: a withdrawal request at utime 1000 is NOT matched by an
outbound transfer at utime 1000 + 129600 (exactly 36 hours later) — the lower
bound `req_at > msg.created_at - 36*3600` is strict — and the transfer
produces no booking; one second earlier the same transfer is matched.  This
refutes the claim's boundary-inclusive example. -/
theorem withdrawal_window_counterexample :
    qualifiesWithdrawal [("0:D", [1000])]
        ⟨"0:D", false, 10 ^ 9, emptyBodyB64, 5, 1000 + 129600⟩ = false
    ∧ processOutbound [("0:D", [1000])]
        [⟨"0:D", false, 10 ^ 9, emptyBodyB64, 5, 1000 + 129600⟩] = []
    ∧ qualifiesWithdrawal [("0:D", [1000])]
        ⟨"0:D", false, 10 ^ 9, emptyBodyB64, 5, 1000 + 129599⟩ = true := by
  decide

/-- C2 amended: an outbound pool transfer (basechain destination, no bounce,
value at least one coin, canonical empty body) with a single recorded
withdrawal request at time T is booked as a withdrawal iff it happens at time
T + d with 0 ≤ d < 129600: the 36-hour window is boundary-EXCLUSIVE at
exactly 36 hours (strict lower bound) and inclusive at d = 0. -/
theorem withdrawal_window_amended (T d : Int) (dst : String) (lt v : Int)
    (hdst : startsWithBasechain dst = true) (hv : ¬ v < 10 ^ 9) :
    qualifiesWithdrawal [(dst, [T])] ⟨dst, false, v, emptyBodyB64, lt, T + d⟩ = true
      ↔ (0 ≤ d ∧ d < 129600) := by
  unfold qualifiesWithdrawal
  simp [hdst, hv, List.find?_cons]
  constructor
  · intro h
    omega
  · intro h
    omega

/-- C2 amended witness: request at 1000, transfer 129599 seconds later is
matched. -/
theorem withdrawal_window_amended_witness :
    qualifiesWithdrawal [("0:D", [1000])]
      ⟨"0:D", false, 10 ^ 9, emptyBodyB64, 5, 1000 + 129599⟩ = true :=
  (withdrawal_window_amended 1000 129599 "0:D" 5 (10 ^ 9) (by decide) (by decide)).mpr
    (by decide)

/-! ## Helper lemmas about the inbound pass -/

theorem inStep_fst_extends (acc : List BRecord × List (String × List Int)) (m : InMsg) :
    ∃ t, (inStep acc m).1 = acc.1 ++ t := by
  unfold inStep
  cases classifyInbound m with
  | deposit r => exact ⟨[r], rfl⟩
  | withdrawReq s t => exact ⟨[], by simp⟩
  | income => exact ⟨[], by simp⟩
  | skip => exact ⟨[], by simp⟩

theorem foldl_inStep_fst_extends (msgs : List InMsg)
    (acc : List BRecord × List (String × List Int)) :
    ∃ t, (msgs.foldl inStep acc).1 = acc.1 ++ t := by
  induction msgs generalizing acc with
  | nil => exact ⟨[], by simp⟩
  | cons m msgs ih =>
    obtain ⟨t1, ht1⟩ := inStep_fst_extends acc m
    obtain ⟨t2, ht2⟩ := ih (inStep acc m)
    exact ⟨t1 ++ t2, by rw [List.foldl_cons, ht2, ht1, List.append_assoc]⟩

/-- C9: `handle_nominator_pool` emits a deposit booking for every successful
inbound message with op code 0 and payload byte 100 (letter d) regardless of
the message value, with credit exactly `value - 10^9`; in particular, when the
value is below `10^9` the booked credit is negative — there is no
minimum-deposit guard on the deposit branch. -/
theorem deposit_no_minimum (msgs : List InMsg) (m : InMsg) (hm : m ∈ msgs)
    (h1 : m.exitCode = some 0) (h2 : m.actionCode = 0)
    (h3 : m.op = some 0) (h4 : m.firstByte = some 100) :
    (⟨m.created_lt, m.created_at, m.source, 0, m.value - 10 ^ 9, "nominator_deposit"⟩ : BRecord)
        ∈ (processInbound msgs).1
    ∧ (m.value < 10 ^ 9 → m.value - 10 ^ 9 < 0) := by
  constructor
  · obtain ⟨xs, ys, rfl⟩ := List.append_of_mem hm
    unfold processInbound
    rw [List.foldl_append, List.foldl_cons]
    have hcl : classifyInbound m
        = .deposit ⟨m.created_lt, m.created_at, m.source, 0,
                    m.value - 10 ^ 9, "nominator_deposit"⟩ := by
      unfold classifyInbound
      rw [h1, h3, h4]
      simp [h2]
    have hstep : (inStep (xs.foldl inStep ([], [])) m).1
        = (xs.foldl inStep ([], [])).1
          ++ [⟨m.created_lt, m.created_at, m.source, 0,
               m.value - 10 ^ 9, "nominator_deposit"⟩] := by
      unfold inStep
      rw [hcl]
    obtain ⟨t, ht⟩ := foldl_inStep_fst_extends ys (inStep (xs.foldl inStep ([], [])) m)
    rw [ht, hstep]
    simp
  · intro h
    omega

/-- C9 witness: a successful deposit message with value 500_000_000 (below one
coin) still produces a deposit booking, with negative credit. -/
theorem deposit_no_minimum_witness :
    (⟨7, 99, "0:S", 0, 500000000 - 10 ^ 9, "nominator_deposit"⟩ : BRecord)
        ∈ (processInbound [⟨"0:S", 500000000, 7, 99, some 0, 0, some 0, some 100⟩]).1
    ∧ ((500000000 : Int) < 10 ^ 9 → (500000000 : Int) - 10 ^ 9 < 0) :=
  deposit_no_minimum [⟨"0:S", 500000000, 7, 99, some 0, 0, some 0, some 100⟩]
    ⟨"0:S", 500000000, 7, 99, some 0, 0, some 0, some 100⟩
    (by decide) rfl rfl rfl rfl

/-- C10: a recorded withdrawal request is never consumed by a match — the
outbound pass only reads the per-address request map — so when every outbound
transfer in a list qualifies (for instance because each falls in the window of
one single request), each transfer produces its own withdrawal booking. -/
theorem withdrawal_requests_not_consumed (reqs : List (String × List Int))
    (msgs : List OutMsg) (h : ∀ m ∈ msgs, qualifiesWithdrawal reqs m = true) :
    processOutbound reqs msgs = msgs.map withdrawalRecord
    ∧ (processOutbound reqs msgs).length = msgs.length := by
  have key : processOutbound reqs msgs = msgs.map withdrawalRecord := by
    induction msgs with
    | nil => rfl
    | cons m ms ih =>
      unfold processOutbound at ih ⊢
      rw [List.filterMap_cons, List.map_cons]
      rw [h m (List.mem_cons_self m ms)]
      simp [ih fun x hx => h x (List.mem_cons_of_mem m hx)]
  exact ⟨key, by rw [key, List.length_map]⟩

/-- C10 witness: a single request at time 1000 matched by two later transfers
in its window yields two separate withdrawal bookings. -/
theorem withdrawal_requests_not_consumed_witness :
    processOutbound [("0:D", [1000])]
        [⟨"0:D", false, 10 ^ 9, emptyBodyB64, 5, 1500⟩,
         ⟨"0:D", false, 2 * 10 ^ 9, emptyBodyB64, 6, 2000⟩]
      = [withdrawalRecord ⟨"0:D", false, 10 ^ 9, emptyBodyB64, 5, 1500⟩,
         withdrawalRecord ⟨"0:D", false, 2 * 10 ^ 9, emptyBodyB64, 6, 2000⟩]
    ∧ (processOutbound [("0:D", [1000])]
        [⟨"0:D", false, 10 ^ 9, emptyBodyB64, 5, 1500⟩,
         ⟨"0:D", false, 2 * 10 ^ 9, emptyBodyB64, 6, 2000⟩]).length = 2 :=
  withdrawal_requests_not_consumed [("0:D", [1000])]
    [⟨"0:D", false, 10 ^ 9, emptyBodyB64, 5, 1500⟩,
     ⟨"0:D", false, 2 * 10 ^ 9, emptyBodyB64, 6, 2000⟩]
    (by decide)

/-! ## Helper lemmas about the driver checkpoint -/

theorem mem_of_getLast?_some {l : List Int} {t : Int} (hb : l.getLast? = some t) :
    t ∈ l := by
  obtain ⟨h, heq⟩ := List.mem_getLast?_eq_getLast (Option.mem_def.mpr hb)
  rw [heq]
  exact List.getLast_mem h

theorem le_getLast?_of_sorted :
    ∀ (l : List Int), l.Sorted (· ≤ ·) → ∀ x ∈ l, ∀ y, l.getLast? = some y → x ≤ y := by
  intro l
  induction l with
  | nil =>
    intro _ x hx
    cases hx
  | cons a l ih =>
    intro hs x hx y hy
    cases l with
    | nil =>
      simp only [List.getLast?_singleton, Option.some_inj] at hy
      simp only [List.mem_singleton] at hx
      subst hx
      subst hy
      exact le_refl x
    | cons b m =>
      rw [List.getLast?_cons_cons] at hy
      have hs' := List.sorted_cons.mp hs
      rcases List.mem_cons.mp hx with rfl | hx2
      · exact hs'.1 y (mem_of_getLast?_some hy)
      · exact ih hs'.2 x hx2 y hy

theorem cycleCheckpoint_le (c : Int) (tss : List Int) : c ≤ cycleCheckpoint c tss := by
  unfold cycleCheckpoint
  split
  · rename_i t hb
    have htmem : t ∈ tss.filter (fun t => c < t) :=
      (List.perm_insertionSort _ _).mem_iff.mp (mem_of_getLast?_some hb)
    have hlt : c < t := by simpa using (List.mem_filter.mp htmem).2
    omega
  · omega

/-- C5: across every sequence of driver cycles the persisted checkpoint never
decreases; a cycle with an empty candidate batch leaves it unchanged, and a
cycle with a non-empty batch (accounts with timestamp strictly above the
checkpoint) sets it to the maximum observed timestamp in the batch, which
strictly exceeds the previous checkpoint. -/
theorem checkpoint_monotonicity :
    (∀ (c : Int) (tss : List Int), c ≤ cycleCheckpoint c tss)
    ∧ (∀ (batches : List (List Int)) (c : Int), c ≤ batches.foldl cycleCheckpoint c)
    ∧ (∀ (c : Int) (tss : List Int), tss.filter (fun t => c < t) = [] →
        cycleCheckpoint c tss = c)
    ∧ (∀ (c : Int) (tss : List Int), tss.filter (fun t => c < t) ≠ [] →
        c < cycleCheckpoint c tss
        ∧ cycleCheckpoint c tss ∈ tss.filter (fun t => c < t)
        ∧ ∀ x ∈ tss.filter (fun t => c < t), x ≤ cycleCheckpoint c tss) := by
  refine ⟨cycleCheckpoint_le, ?_, ?_, ?_⟩
  · intro batches
    induction batches with
    | nil => intro c; exact le_refl c
    | cons b bs ih => intro c; exact le_trans (cycleCheckpoint_le c b) (ih _)
  · intro c tss h
    unfold cycleCheckpoint
    rw [h]
    rfl
  · intro c tss h
    unfold cycleCheckpoint
    split
    · rename_i t hb
      have htmem : t ∈ tss.filter (fun t => c < t) :=
        (List.perm_insertionSort _ _).mem_iff.mp (mem_of_getLast?_some hb)
      refine ⟨by simpa using (List.mem_filter.mp htmem).2, htmem, ?_⟩
      intro x hx
      exact le_getLast?_of_sorted _ (List.sorted_insertionSort _ _)
        x ((List.perm_insertionSort _ _).mem_iff.mpr hx) t hb
    · rename_i hb
      exfalso
      have hnil : (tss.filter (fun t => c < t)).insertionSort (· ≤ ·) = [] :=
        List.getLast?_eq_none_iff.mp hb
      have : tss.filter (fun t => c < t) = [] := by
        have hlen := (List.perm_insertionSort (· ≤ ·) (tss.filter (fun t => c < t))).length_eq
        rw [hnil] at hlen
        exact List.eq_nil_of_length_eq_zero hlen.symm
      exact h this

/-- C5 witness: a batch with candidate timestamps 12 and 11 above checkpoint
10 advances it; a batch with no candidates above checkpoint 5 leaves it at 5. -/
theorem checkpoint_monotonicity_witness :
    (10 : Int) ≤ cycleCheckpoint 10 [3, 12, 11]
    ∧ cycleCheckpoint 5 [3, 4] = 5
    ∧ (5 : Int) < cycleCheckpoint 5 [3, 4, 9] :=
  ⟨checkpoint_monotonicity.1 10 [3, 12, 11],
   checkpoint_monotonicity.2.2.1 5 [3, 4] (by decide),
   (checkpoint_monotonicity.2.2.2 5 [3, 4, 9] (by decide)).1⟩

/-- C6 counterexample: when both the initial account-state fetch and the
single retry fail, the handler does NOT merely skip the account — it calls
`delete_pool_with_nominators`, which removes the pool's Account row from the
result store.  This refutes the claim that a double failure has no other
effect on that account's rows. -/
theorem rpc_retry_counterexample :
    (fetchPoolState (α := Nat) none none "0:P" [⟨"0:P", "nominator_pool", 5⟩]).2 = []
    ∧ ([⟨"0:P", "nominator_pool", 5⟩] : List AccountRow) ≠ [] := by
  decide

/-- C6 amended: on a fetch failure the handler performs exactly one reconnect
and retry; a success on either attempt leaves the result store untouched, but
if the retry also fails, the account's row is deleted from the result store
and the handler returns (rows of other accounts are unaffected). -/
theorem rpc_retry_amended (first retry : Option α) (addr : String)
    (store : List AccountRow) :
    (∀ d, first = some d → fetchPoolState first retry addr store = (some d, store))
    ∧ (∀ d, first = none → retry = some d →
        fetchPoolState first retry addr store = (some d, store))
    ∧ (first = none → retry = none →
        fetchPoolState first retry addr store = (none, deleteAccount addr store)
        ∧ ∀ r ∈ store, r.account ≠ addr → r ∈ (fetchPoolState first retry addr store).2) := by
  refine ⟨?_, ?_, ?_⟩
  · intro d hd
    subst hd
    rfl
  · intro d h1 h2
    subst h1
    subst h2
    rfl
  · intro h1 h2
    subst h1
    subst h2
    refine ⟨rfl, ?_⟩
    intro r hr hne
    simp only [fetchPoolState, deleteAccount]
    exact List.mem_filter.mpr ⟨hr, by simpa using hne⟩

/-- C6 amended witness: a first-attempt success returns the data and leaves
the store unchanged; a double failure keeps the other account's row. -/
theorem rpc_retry_amended_witness :
    fetchPoolState (some 7) none "0:P" [⟨"0:Q", "nominator_pool", 3⟩]
      = (some 7, [⟨"0:Q", "nominator_pool", 3⟩])
    ∧ (⟨"0:Q", "nominator_pool", 3⟩ : AccountRow)
        ∈ (fetchPoolState (α := Nat) none none "0:P" [⟨"0:Q", "nominator_pool", 3⟩]).2 :=
  ⟨(rpc_retry_amended (some 7) none "0:P" [⟨"0:Q", "nominator_pool", 3⟩]).1 7 rfl,
   ((rpc_retry_amended (α := Nat) none none "0:P" [⟨"0:Q", "nominator_pool", 3⟩]).2.2
      rfl rfl).2 ⟨"0:Q", "nominator_pool", 3⟩ (by decide) (by decide)⟩

/-! ## Helper lemmas about the pool-summary upsert -/

theorem find?_map_applyPoolFields (addr : String) (b va sas nc : Int) :
    ∀ (store : List PoolRow), store.any (fun p => p.account = addr) = true →
      (store.map (applyPoolFields addr b va sas nc)).find? (fun p => p.account = addr)
        = some ⟨addr, b, va, sas, nc⟩ := by
  intro store
  induction store with
  | nil => intro h; cases h
  | cons p rest ih =>
    intro hany
    by_cases hpa : p.account = addr
    · have hupd : applyPoolFields addr b va sas nc p = ⟨addr, b, va, sas, nc⟩ := by
        unfold applyPoolFields
        rw [if_pos hpa]
        cases p
        simp_all
      rw [List.map_cons, hupd]
      simp [List.find?_cons]
    · have hupd : applyPoolFields addr b va sas nc p = p := by
        unfold applyPoolFields
        rw [if_neg hpa]
      have hrest : rest.any (fun p => p.account = addr) = true := by
        rcases List.any_eq_true.mp hany with ⟨x, hx, hxp⟩
        rcases List.mem_cons.mp hx with rfl | hx2
        · exact absurd (by simpa using hxp) hpa
        · exact List.any_eq_true.mpr ⟨x, hx2, hxp⟩
      rw [List.map_cons, hupd]
      rw [List.find?_cons_of_neg _ (by simpa using hpa)]
      exact ih hrest

theorem find?_append_of_none {p : PoolRow → Bool} {l1 l2 : List PoolRow}
    (h : l1.find? p = none) : (l1 ++ l2).find? p = l2.find? p := by
  induction l1 with
  | nil => rfl
  | cons a l ih =>
    cases hpa : p a with
    | true =>
      exfalso
      rw [List.find?_cons_of_pos _ hpa] at h
      cases h
    | false =>
      rw [List.find?_cons_of_neg _ (by simp [hpa])] at h
      rw [List.cons_append, List.find?_cons_of_neg _ (by simp [hpa])]
      exact ih h

/-- C7 counterexample: `handle_dedust_pool` returns immediately when the
liquidity-pool row already exists — observing the pool again with a new
balance 7 leaves the stored balance at 5, so dedust pool rows are NOT
upserted every cycle. -/
theorem dedust_no_upsert_counterexample :
    handleDedustPool "0:L" 7 9 9 [⟨"0:L", 5, 1, 2⟩] = [⟨"0:L", 5, 1, 2⟩]
    ∧ ((5 : Int) ≠ 7) := by
  decide

/-- C7 amended: the nominator-pool handler upserts the pool's summary row
with the currently parsed aggregates and balance in every cycle it is
dispatched (whether or not the row already exists), whereas the dedust
handler inserts the row only when it is absent and leaves an existing row
untouched. -/
theorem pool_summary_upsert_amended (addr : String) (b va sas nc : Int)
    (store : List PoolRow) :
    (updatePoolRow addr b va sas nc store).find? (fun p => p.account = addr)
        = some ⟨addr, b, va, sas, nc⟩
    ∧ (∀ (lstore : List LPoolRow) (lb r1 r2 : Int),
        (lstore.any (fun p => p.account = addr) = true →
          handleDedustPool addr lb r1 r2 lstore = lstore)
        ∧ (lstore.any (fun p => p.account = addr) = false →
          handleDedustPool addr lb r1 r2 lstore = lstore ++ [⟨addr, lb, r1, r2⟩])) := by
  constructor
  · unfold updatePoolRow
    split
    · rename_i hany
      exact find?_map_applyPoolFields addr b va sas nc store hany
    · rename_i hany
      have hnone : store.find? (fun p => p.account = addr) = none := by
        rw [List.find?_eq_none]
        intro x hx hxp
        exact hany (List.any_eq_true.mpr ⟨x, hx, hxp⟩)
      rw [find?_append_of_none hnone]
      simp [List.find?_cons]
  · intro lstore lb r1 r2
    constructor
    · intro h
      unfold handleDedustPool
      rw [if_pos h]
    · intro h
      unfold handleDedustPool
      rw [if_neg (by simp [h])]

/-- C7 amended witness: upserting over an existing nominator-pool row with
stale values yields the fresh values; an absent dedust row is inserted. -/
theorem pool_summary_upsert_amended_witness :
    (updatePoolRow "0:P" 7 8 9 2 [⟨"0:P", 1, 1, 1, 1⟩]).find?
        (fun p => p.account = "0:P") = some ⟨"0:P", 7, 8, 9, 2⟩
    ∧ handleDedustPool "0:L" 7 9 9 [] = [⟨"0:L", 7, 9, 9⟩] :=
  ⟨(pool_summary_upsert_amended "0:P" 7 8 9 2 [⟨"0:P", 1, 1, 1, 1⟩]).1,
   ((pool_summary_upsert_amended "0:L" 7 8 9 2 []).2 [] 7 9 9).2 (by decide)⟩

/-! ## Helper lemmas about subaccount maintenance and append-only bookings -/

theorem ownerMem_activeStep {o : String} {acc : List NomRow}
    (h : ∃ s ∈ acc, s.owner = o) (n : String × Int × Int) :
    ∃ s ∈ activeStep acc n, s.owner = o := by
  obtain ⟨s, hs, ho⟩ := h
  unfold activeStep
  split
  · by_cases hsn : s.owner = n.1
    · exact ⟨{ s with balance := n.2.1, pending_balance := n.2.2 },
        List.mem_map.mpr ⟨s, hs, by rw [if_pos hsn]⟩, ho⟩
    · exact ⟨s, List.mem_map.mpr ⟨s, hs, by rw [if_neg hsn]⟩, ho⟩
  · exact ⟨s, List.mem_append_left _ hs, ho⟩

theorem ownerMem_updateActives {o : String} (noms : List (String × Int × Int))
    {subs : List NomRow} (h : ∃ s ∈ subs, s.owner = o) :
    ∃ s ∈ updateActives noms subs, s.owner = o := by
  induction noms generalizing subs with
  | nil => exact h
  | cons n noms ih => exact ih (ownerMem_activeStep h n)

theorem ownerMem_markInactive {o : String} (active : List String)
    {subs : List NomRow} (h : ∃ s ∈ subs, s.owner = o) :
    ∃ s ∈ markInactive active subs, s.owner = o := by
  obtain ⟨s, hs, ho⟩ := h
  unfold markInactive
  by_cases hc : active.contains s.owner
  · exact ⟨s, List.mem_map.mpr ⟨s, hs, by rw [if_pos hc]⟩, ho⟩
  · exact ⟨{ s with balance := 0, pending_balance := 0 },
      List.mem_map.mpr ⟨s, hs, by rw [if_neg hc]⟩, ho⟩

theorem insertBookings_append (pid : Nat) (f : String → Nat) (rs : List BRecord) :
    ∀ s : List Booking, ∃ t, insertBookings pid f rs s = s ++ t := by
  induction rs with
  | nil => exact fun s => ⟨[], by simp [insertBookings]⟩
  | cons r rs ih =>
    intro s
    obtain ⟨t, ht⟩ := ih (insertBooking s (mkBooking pid (f r.subaccount_address) r))
    have hstep : insertBookings pid f (r :: rs) s
        = insertBookings pid f rs (insertBooking s (mkBooking pid (f r.subaccount_address) r)) :=
      rfl
    rw [hstep, ht]
    unfold insertBooking
    split
    · exact ⟨t, rfl⟩
    · exact ⟨[mkBooking pid (f r.subaccount_address) r] ++ t, by rw [List.append_assoc]⟩

/-- C8: every previously-known subaccount of the pool still has a row after
the balance-maintenance pass, any resulting row whose owner is absent from
the currently parsed nominators dictionary has balance and pending balance
zero, and the booking insert loop only ever appends to the Booking table —
existing Booking rows are left unchanged. -/
theorem inactive_preserves_history (noms : List (String × Int × Int))
    (subs : List NomRow) :
    (∀ s ∈ markInactive (activeOwners noms) (updateActives noms subs),
        (activeOwners noms).contains s.owner = false →
        s.balance = 0 ∧ s.pending_balance = 0)
    ∧ (∀ r ∈ subs, ∃ s ∈ markInactive (activeOwners noms) (updateActives noms subs),
        s.owner = r.owner)
    ∧ (∀ (pid : Nat) (f : String → Nat) (rs : List BRecord) (store : List Booking),
        store <+: insertBookings pid f rs store) := by
  refine ⟨?_, ?_, ?_⟩
  · intro s hs hcon
    obtain ⟨x, hx, hxe⟩ := List.mem_map.mp hs
    by_cases hc : (activeOwners noms).contains x.owner
    · rw [if_pos hc] at hxe
      subst hxe
      rw [hc] at hcon
      cases hcon
    · rw [if_neg hc] at hxe
      subst hxe
      exact ⟨rfl, rfl⟩
  · intro r hr
    exact ownerMem_markInactive _ (ownerMem_updateActives noms ⟨r, hr, rfl⟩)
  · intro pid f rs store
    obtain ⟨t, ht⟩ := insertBookings_append pid f rs store
    rw [ht]
    exact List.prefix_append store t

/-- C8 witness: with active nominator A and previously-known subaccount B,
B's row is zeroed while an existing booking store is a prefix of the store
after the insert loop. -/
theorem inactive_preserves_history_witness :
    ((⟨"0:B", 0, 0⟩ : NomRow).balance = 0 ∧ (⟨"0:B", 0, 0⟩ : NomRow).pending_balance = 0)
    ∧ [mkBooking 1 2 ⟨7, 99, "0:S", 0, 4500000000, "nominator_deposit"⟩]
        <+: insertBookings 1 sidTwo []
              [mkBooking 1 2 ⟨7, 99, "0:S", 0, 4500000000, "nominator_deposit"⟩] :=
  ⟨(inactive_preserves_history [("0:A", 5, 6)] [⟨"0:B", 7, 8⟩]).1 ⟨"0:B", 0, 0⟩
      (by decide) (by decide),
   (inactive_preserves_history [("0:A", 5, 6)] [⟨"0:B", 7, 8⟩]).2.2 1 sidTwo []
      [mkBooking 1 2 ⟨7, 99, "0:S", 0, 4500000000, "nominator_deposit"⟩]⟩

/-! ## Helper lemmas about the reward-split arithmetic -/

theorem pyTrunc_eq_floor {q : ℚ} (h : 0 ≤ q) : pyTrunc q = Int.floor q := by
  unfold pyTrunc
  rw [if_neg (not_lt.mpr h)]

theorem pyTrunc_le {q : ℚ} (h : 0 ≤ q) : (pyTrunc q : ℚ) ≤ q := by
  rw [pyTrunc_eq_floor h]
  exact Int.floor_le q

theorem pyTrunc_nonneg {q : ℚ} (h : 0 ≤ q) : 0 ≤ pyTrunc q := by
  rw [pyTrunc_eq_floor h]
  exact Int.floor_nonneg.mpr h

theorem nominatorCredit_cast_le {b S NR : ℤ} (hb : 0 ≤ b) (hS : 0 < S) (hNR : 0 ≤ NR) :
    ((nominatorCredit b S NR : ℤ) : ℚ) ≤ (b : ℚ) / (S : ℚ) * (NR : ℚ) := by
  unfold nominatorCredit
  have hbq : (0 : ℚ) ≤ (b : ℚ) := by exact_mod_cast hb
  have hSq : (0 : ℚ) ≤ (S : ℚ) := by exact_mod_cast hS.le
  have hNRq : (0 : ℚ) ≤ (NR : ℚ) := by exact_mod_cast hNR
  exact pyTrunc_le (mul_nonneg (div_nonneg hbq hSq) hNRq)

theorem nominatorCredit_nonneg {b S NR : ℤ} (hb : 0 ≤ b) (hS : 0 < S) (hNR : 0 ≤ NR) :
    0 ≤ nominatorCredit b S NR := by
  unfold nominatorCredit
  have hbq : (0 : ℚ) ≤ (b : ℚ) := by exact_mod_cast hb
  have hSq : (0 : ℚ) ≤ (S : ℚ) := by exact_mod_cast hS.le
  have hNRq : (0 : ℚ) ≤ (NR : ℚ) := by exact_mod_cast hNR
  exact pyTrunc_nonneg (mul_nonneg (div_nonneg hbq hSq) hNRq)

theorem sum_credits_le_rat (S NR : ℤ) (hS : 0 < S) (hNR : 0 ≤ NR) :
    ∀ (balances : List ℤ), (∀ b ∈ balances, 0 ≤ b) →
      (((balances.map (fun b => nominatorCredit b S NR)).sum : ℤ) : ℚ)
        ≤ ((balances.sum : ℤ) : ℚ) / (S : ℚ) * (NR : ℚ) := by
  intro balances
  induction balances with
  | nil => simp
  | cons b bs ih =>
    intro hpos
    have hb : 0 ≤ b := hpos b (List.mem_cons_self _ _)
    have h1 := nominatorCredit_cast_le hb hS hNR
    have h2 := ih (fun x hx => hpos x (List.mem_cons_of_mem _ hx))
    rw [List.map_cons, List.sum_cons, List.sum_cons]
    rw [Int.cast_add, Int.cast_add]
    have hring : ((b : ℚ) + ((bs.sum : ℤ) : ℚ)) / (S : ℚ) * (NR : ℚ)
        = (b : ℚ) / (S : ℚ) * (NR : ℚ) + ((bs.sum : ℤ) : ℚ) / (S : ℚ) * (NR : ℚ) := by
      ring
    rw [hring]
    linarith [h1, h2]

theorem sum_credits_le (balances : List ℤ) (S NR : ℤ) (hS : 0 < S) (hNR : 0 ≤ NR)
    (hpos : ∀ b ∈ balances, 0 ≤ b) (hsum : balances.sum ≤ S) :
    (balances.map (fun b => nominatorCredit b S NR)).sum ≤ NR := by
  have key := sum_credits_le_rat S NR hS hNR balances hpos
  have hSq : (0 : ℚ) < (S : ℚ) := by exact_mod_cast hS
  have hNRq : (0 : ℚ) ≤ (NR : ℚ) := by exact_mod_cast hNR
  have hsq : ((balances.sum : ℤ) : ℚ) ≤ (S : ℚ) := by exact_mod_cast hsum
  have hdiv : ((balances.sum : ℤ) : ℚ) / (S : ℚ) ≤ 1 := by
    rw [div_le_one hSq]
    exact hsq
  have hmul : ((balances.sum : ℤ) : ℚ) / (S : ℚ) * (NR : ℚ) ≤ (NR : ℚ) := by
    calc ((balances.sum : ℤ) : ℚ) / (S : ℚ) * (NR : ℚ)
        ≤ 1 * (NR : ℚ) := mul_le_mul_of_nonneg_right hdiv hNRq
      _ = (NR : ℚ) := one_mul _
  have hfinal :
      (((balances.map (fun b => nominatorCredit b S NR)).sum : ℤ) : ℚ) ≤ (NR : ℚ) :=
    le_trans key hmul
  exact_mod_cast hfinal

theorem validatorReward_le {reward shareBps : ℤ} (hr : 0 ≤ reward)
    (h0 : 0 ≤ shareBps) (h1 : shareBps ≤ 10000) :
    validatorReward reward shareBps ≤ reward ∧ 0 ≤ validatorReward reward shareBps := by
  have hq : (0 : ℚ) ≤ ((reward * shareBps : ℤ) : ℚ) / (10000 : ℚ) := by
    apply div_nonneg ?_ (by norm_num)
    exact_mod_cast mul_nonneg hr h0
  constructor
  · have hle : ((reward * shareBps : ℤ) : ℚ) / (10000 : ℚ) ≤ (reward : ℚ) := by
      rw [div_le_iff₀ (by norm_num : (0 : ℚ) < 10000)]
      push_cast
      have := mul_le_mul_of_nonneg_left (show (shareBps : ℚ) ≤ 10000 by exact_mod_cast h1)
        (show (0 : ℚ) ≤ (reward : ℚ) by exact_mod_cast hr)
      linarith
    have : ((validatorReward reward shareBps : ℤ) : ℚ) ≤ (reward : ℚ) :=
      le_trans (pyTrunc_le hq) hle
    exact_mod_cast this
  · exact pyTrunc_nonneg hq

theorem nominatorsReward_nonneg {reward shareBps : ℤ} (hr : 0 ≤ reward)
    (h0 : 0 ≤ shareBps) (h1 : shareBps ≤ 10000) :
    0 ≤ nominatorsReward reward shareBps := by
  have h := validatorReward_le hr h0 h1
  unfold nominatorsReward
  omega

/-- C3 counterexample: for an income event with msg.value 85 and prior stake
100 (reward −15) at validator share 1000 bps, the code's
`int(reward * validator_share / 10000)` truncates −1.5 toward zero and gives
−1, while floor gives −2 — so `validatorReward = floor(...)` fails on
negative rewards (all values here are exactly representable as doubles, so
exact rational arithmetic agrees with the float computation). -/
theorem reward_split_floor_counterexample :
    validatorReward (85 - 100) 1000 = -1
    ∧ Int.floor (((85 - 100 : ℤ) * 1000 : ℤ) / (10000 : ℚ)) = -2 := by
  constructor
  · norm_num [validatorReward, pyTrunc]
  · norm_num

/-- C3 amended: the code computes `validatorReward` by truncation toward
zero, which coincides with floor for nonnegative rewards;
`nominatorsReward = reward − validatorReward`; the concrete split for
reward 100e9 at 1000 bps and nominator balances 40e9/60e9 of a 100e9 stake is
10e9 / 90e9 with credits 36e9 and 54e9; and whenever the per-nominator
balances are nonnegative and sum to at most the prior stake, the sum of
credits never exceeds `nominatorsReward` (taken nonnegative). -/
theorem reward_split_amended :
    (∀ reward shareBps : ℤ, 0 ≤ reward → 0 ≤ shareBps →
        validatorReward reward shareBps
          = Int.floor (((reward * shareBps : ℤ) : ℚ) / (10000 : ℚ)))
    ∧ validatorReward 100000000000 1000 = 10000000000
    ∧ nominatorsReward 100000000000 1000 = 90000000000
    ∧ recoverStakeBookings 1 2 200000000000 100000000000 1000
        [("0:N1", 40000000000, 0), ("0:N2", 60000000000, 0)]
      = [⟨1, 2, "0:N1", 0, 36000000000, "nominator_income"⟩,
         ⟨1, 2, "0:N2", 0, 54000000000, "nominator_income"⟩]
    ∧ (∀ (balances : List ℤ) (S NR : ℤ), 0 < S → 0 ≤ NR →
        (∀ b ∈ balances, 0 ≤ b) → balances.sum ≤ S →
        (balances.map (fun b => nominatorCredit b S NR)).sum ≤ NR) := by
  refine ⟨?_, ?_, ?_, ?_, ?_⟩
  · intro reward shareBps hr h0
    unfold validatorReward
    apply pyTrunc_eq_floor
    apply div_nonneg ?_ (by norm_num)
    exact_mod_cast mul_nonneg hr h0
  · norm_num [validatorReward, pyTrunc]
  · norm_num [nominatorsReward, validatorReward, pyTrunc]
  · simp only [recoverStakeBookings, List.filterMap_cons, List.filterMap_nil]
    norm_num [nominatorCredit, nominatorsReward, validatorReward, pyTrunc]
  · intro balances S NR hS hNR hpos hsum
    exact sum_credits_le balances S NR hS hNR hpos hsum

/-- C3 amended witness: the spec's two-nominator example instantiating the
floor identity and the conservation bound. -/
theorem reward_split_amended_witness :
    validatorReward 100000000000 1000
      = Int.floor (((100000000000 * 1000 : ℤ) : ℚ) / (10000 : ℚ))
    ∧ ([40000000000, 60000000000].map
        (fun b => nominatorCredit b 100000000000 90000000000)).sum ≤ 90000000000 :=
  ⟨reward_split_amended.1 100000000000 1000 (by norm_num) (by norm_num),
   reward_split_amended.2.2.2.2 [40000000000, 60000000000] 100000000000 90000000000
     (by norm_num) (by norm_num) (by decide) (by decide)⟩

/-- C4 counterexample: with msg.value 50, prior stake 100 and validator share
1000 bps, the reward is −50, the nominators reward −45, and a single
nominator holding the whole prior stake gets credit −45; the guard
`if not his_reward: continue` only skips a zero credit, so the negative-credit
income booking is emitted and inserted into an empty store (all values are
exactly representable as doubles, so exact rational arithmetic agrees with
the float computation). -/
theorem negative_income_booking_counterexample :
    (insertBookings 1 sidTwo (recoverStakeBookings 3 4 50 100 1000 [("0:A", 100, 0)]) []).map
        (fun b => b.credit) = [-45]
    ∧ (-45 : ℤ) ≤ 0 := by
  have h : recoverStakeBookings 3 4 50 100 1000 [("0:A", 100, 0)]
      = [⟨3, 4, "0:A", 0, -45, "nominator_income"⟩] := by
    simp only [recoverStakeBookings, List.filterMap_cons, List.filterMap_nil]
    norm_num [nominatorCredit, nominatorsReward, validatorReward, pyTrunc]
  rw [h]
  constructor
  · decide
  · decide

/-- C4 amended: an income booking is emitted for a nominator exactly when its
computed credit is nonzero (not: strictly positive); whenever
msg.value ≥ priorStakeAmountSent (with the validator share between 0 and
10000 bps, a positive prior stake and nonnegative balances) every emitted
credit is strictly positive, but for msg.value < priorStakeAmountSent
bookings with negative credit can be inserted. -/
theorem income_credit_guard_amended (lt utime value stakeBefore shareBps : ℤ)
    (noms : List (String × Int × Int)) :
    (∀ r ∈ recoverStakeBookings lt utime value stakeBefore shareBps noms, r.credit ≠ 0)
    ∧ (stakeBefore ≤ value → 0 ≤ shareBps → shareBps ≤ 10000 → 0 < stakeBefore →
        (∀ n ∈ noms, 0 ≤ n.2.1) →
        ∀ r ∈ recoverStakeBookings lt utime value stakeBefore shareBps noms,
          0 < r.credit) := by
  constructor
  · intro r hr
    rcases List.mem_filterMap.mp hr with ⟨n, hn, hf⟩
    by_cases hz : nominatorCredit n.2.1 stakeBefore
        (nominatorsReward (value - stakeBefore) shareBps) = 0
    · rw [if_pos hz] at hf
      cases hf
    · rw [if_neg hz] at hf
      cases hf
      simpa using hz
  · intro hv h0 h1 hS hbal r hr
    rcases List.mem_filterMap.mp hr with ⟨n, hn, hf⟩
    by_cases hz : nominatorCredit n.2.1 stakeBefore
        (nominatorsReward (value - stakeBefore) shareBps) = 0
    · rw [if_pos hz] at hf
      cases hf
    · rw [if_neg hz] at hf
      cases hf
      have hNR : 0 ≤ nominatorsReward (value - stakeBefore) shareBps :=
        nominatorsReward_nonneg (by omega) h0 h1
      have hcr : 0 ≤ nominatorCredit n.2.1 stakeBefore
          (nominatorsReward (value - stakeBefore) shareBps) :=
        nominatorCredit_nonneg (hbal n hn) hS hNR
      simp only []
      omega

/-- C4 amended witness: with msg.value 200, prior stake 100, share 1000 bps
and one nominator holding the whole prior stake, the emitted credit 90 is
strictly positive. -/
theorem income_credit_guard_amended_witness :
    0 < (⟨5, 6, "0:A", 0, 90, "nominator_income"⟩ : BRecord).credit :=
  (income_credit_guard_amended 5 6 200 100 1000 [("0:A", 100, 0)]).2
    (by norm_num) (by norm_num) (by norm_num) (by norm_num) (by decide)
    ⟨5, 6, "0:A", 0, 90, "nominator_income"⟩
    (by
      have h : recoverStakeBookings 5 6 200 100 1000 [("0:A", 100, 0)]
          = [⟨5, 6, "0:A", 0, 90, "nominator_income"⟩] := by
        simp only [recoverStakeBookings, List.filterMap_cons, List.filterMap_nil]
        norm_num [nominatorCredit, nominatorsReward, validatorReward, pyTrunc]
      rw [h]
      exact List.mem_singleton_self _)

end SCIndexer
